import Mathlib

/-!
Verification of the terminal shell-completion aggregator
(`src/vs/workbench/contrib/terminalContrib/suggest/browser/terminalCompletionService.ts`).

The TypeScript code is shallowly embedded: JS strings become `List Char`
(`Str`), the provider registry (nested JS `Map`s) becomes an insertion-ordered
association list, promises returning `T | undefined` become
`Except Str (Option T)` where an `Except.error` models a rejected promise, and
the external collaborators (file service, configuration service, capability
store) are explicit parameters.  All definitions are executable.
-/

/-- JS strings are modelled as lists of characters. -/
abbrev Str := List Char

/-- Coerce a Lean string literal into the `Str` model. -/
def str (x : String) : Str := x.toList

/-- JS `String.prototype.endsWith(needle)`. -/
def jsEndsWith (needle s : Str) : Bool := needle.isSuffixOf s

/-- JS `String.prototype.split(sep)` for a single-character separator:
always returns a non-empty list of (possibly empty) components. -/
def jsSplitChar (sep : Char) : Str → List Str
  | [] => [[]]
  | c :: rest =>
    let r := jsSplitChar sep rest
    if c == sep then [] :: r
    else
      match r with
      | [] => [[c]]
      | w :: ws => (c :: w) :: ws

/-- JS `String.prototype.lastIndexOf(needle)`: the greatest index at which
`needle` occurs as a substring, or `-1` when it does not occur. -/
def jsLastIndexOfStr (needle s : Str) : Int :=
  match (((List.range (s.length + 1)).filter
      (fun i => needle.isPrefixOf (s.drop i))).getLast?) with
  | some i => (i : Int)
  | none => -1

/-- A character matched by the regex class `[\\/]`. -/
def isSlashChar (c : Char) : Bool := c == '\\' || c == '/'

/-- The regex test `/^\.\.?[\\\/]/` used for `lastWordFolderHasDotPrefix`. -/
def hasDotPrefixB : Str → Bool
  | '.' :: '.' :: c :: _ => isSlashChar c
  | '.' :: c :: _ => isSlashChar c
  | _ => false

/-- The regex test `/^~[\\\/]/` used for `lastWordFolderHasTildePrefix`. -/
def hasTildePrefixB : Str → Bool
  | '~' :: c :: _ => isSlashChar c
  | _ => false

/-- JS truthiness of an optional boolean (`undefined` is falsy). -/
def jsTruthy (b : Option Bool) : Bool := b.getD false

/-- Modelled from the spec: the `URI` type of the repository's base library
(`vs/base/common/uri`), absent from src/; only the filesystem path the
completion code reads back out of it is represented. -/
structure URI where
  fsPath : Str
deriving DecidableEq

/-- Modelled from the spec: `URI.file`, building a location from a path. -/
def URI.file (p : Str) : URI := ⟨p⟩

/-- Modelled from the spec: `URI.joinPath`, appending a path fragment to a
location. -/
def URI.joinPath (u : URI) (fragment : Str) : URI :=
  ⟨u.fsPath ++ ('/' :: fragment)⟩

/-- Modelled from the spec: the path utility `basename`
(`vs/base/common/path`), absent from src/: the final path segment, the part
after the last slash. -/
def basenameOf (p : Str) : Str :=
  (p.reverse.takeWhile (fun c => !isSlashChar c)).reverse

/-- `TerminalCompletionItemKind` (from `terminalCompletionItem.ts`); only the
constructors this code distinguishes are named. -/
inductive CompletionItemKind where
  | file
  | folder
  | method
  | otherKind (n : Nat)
deriving DecidableEq

/-- `ITerminalCompletion`: one completion item. -/
structure CompletionItem where
  label : Str
  provider : Str
  kind : CompletionItemKind
  detail : Option Str
  replacementIndex : Nat
  replacementLength : Nat
  isFileOverride : Option Bool
deriving DecidableEq

/-- `completion.isFileOverride ??= b` -/
def setIsFileOverride (c : CompletionItem) (b : Bool) : CompletionItem :=
  ⟨c.label, c.provider, c.kind, c.detail, c.replacementIndex,
    c.replacementLength, some b⟩

/-- `item.provider = providerId` -/
def setProvider (c : CompletionItem) (providerId : Str) : CompletionItem :=
  ⟨c.label, providerId, c.kind, c.detail, c.replacementIndex,
    c.replacementLength, c.isFileOverride⟩

/-- One child of `IFileStat`: the fields the completion code reads. -/
structure ChildStat where
  name : Str
  resource : URI
  isDirectory : Bool
  isFile : Bool
deriving DecidableEq

/-- `IFileStat` as consumed here: only the optional children list is read. -/
structure FileStat where
  children : Option (List ChildStat)
deriving DecidableEq

/-- The file service collaborator: `resolve` may reject (`Except.error`),
resolve to no stat, or produce a stat. -/
abbrev FileService := URI → Except Str (Option FileStat)

/-- `TerminalResourceRequestConfig`. -/
structure TerminalResourceRequestConfig where
  filesRequested : Option Bool
  foldersRequested : Option Bool
  cwd : Option URI
  pathSeparator : Str
  env : Option (List (Str × Option Str))
deriving DecidableEq

/-- `TerminalShellType`: only PowerShell is treated specially by this code. -/
inductive TerminalShellType where
  | powershell
  | bash
  | zsh
  | fish
  | otherShell (name : Str)
deriving DecidableEq

/-- The capability store collaborator: the only lookup performed is
`capabilities.get(TerminalCapability.ShellEnvDetection)?.env`, so the store is
represented by that optional environment map. -/
structure CapabilityStore where
  shellEnvDetectionEnv : Option (List (Str × Str))
deriving DecidableEq

/-- The configuration service collaborator: the two settings this code reads. -/
structure ConfigurationService where
  providersConfig : List (Str × Bool)
  cdPathValue : Str

/-- A provider's return value: a flat array of items, or a
`TerminalCompletionList` with optional items and an optional resource request. -/
inductive ProviderOutcome where
  | items (items : List CompletionItem)
  | list (items : Option (List CompletionItem))
      (resourceRequestConfig : Option TerminalResourceRequestConfig)

/-- `ITerminalCompletionProvider`. -/
structure CompletionProvider where
  id : Str
  shellTypes : Option (List TerminalShellType)
  triggerCharacters : Option (List Str)
  isBuiltin : Option Bool
  provide : Str → Nat → Except Str (Option ProviderOutcome)

/-- The two-level provider registry `Map<extId, Map<providerId, provider>>`,
as an insertion-ordered association list. -/
abbrev Registry := List (Str × List (Str × CompletionProvider))

/-- `Map.set`: replace the value at an existing key in place, else append. -/
def assocSet {β : Type} (k : Str) (v : β) : List (Str × β) → List (Str × β)
  | [] => [(k, v)]
  | (a, w) :: rest =>
    if a = k then (a, v) :: rest else (a, w) :: assocSet k v rest

/-- `Map.delete`: remove the entry stored at the key, if any. -/
def assocDelete {β : Type} (k : Str) : List (Str × β) → List (Str × β)
  | [] => []
  | (a, w) :: rest =>
    if a = k then assocDelete k rest else (a, w) :: assocDelete k rest

/-- The `providers` getter: flatten the two-level map in iteration order. -/
def registryProviders (st : Registry) : List CompletionProvider :=
  st.flatMap (fun bucket => bucket.2.map (fun e => e.2))

/-- All `(namespace, id, provider)` entries of the registry in iteration
order. -/
def registryEntries (st : Registry) : List (Str × Str × CompletionProvider) :=
  st.flatMap (fun bucket => bucket.2.map (fun e => (bucket.1, e.1, e.2)))

/-- Lookup of a provider by namespace and id. -/
def registryLookup (st : Registry) (extensionIdentifier id : Str) :
    Option CompletionProvider :=
  (List.lookup extensionIdentifier st).bind (fun m => List.lookup id m)

/-- `registerTerminalCompletionProvider`: stamp the provider with its id and
trigger characters and store it under (namespace, id). -/
def registerTerminalCompletionProvider (st : Registry)
    (extensionIdentifier id : Str) (provider : CompletionProvider)
    (triggerCharacters : List Str) : Registry :=
  let stamped : CompletionProvider :=
    ⟨id, provider.shellTypes, some triggerCharacters, provider.isBuiltin,
      provider.provide⟩
  let extMap := (List.lookup extensionIdentifier st).getD []
  assocSet extensionIdentifier (assocSet id stamped extMap) st

/-- The disposable returned by registration: delete the (namespace, id) entry
and prune the namespace bucket if it became empty. -/
def disposeProviderRegistration (st : Registry)
    (extensionIdentifier id : Str) : Registry :=
  match List.lookup extensionIdentifier st with
  | none => st
  | some extMap =>
    let m := assocDelete id extMap
    if m.isEmpty then assocDelete extensionIdentifier st
    else assocSet extensionIdentifier m st

/-- Registry states reachable through JS `Map`s have unique keys at both
levels. -/
def registryWF (st : Registry) : Prop :=
  (st.map (fun b => b.1)).Nodup ∧ ∀ b ∈ st, (b.2.map (fun e => e.1)).Nodup

instance : DecidablePred registryWF := fun st => by
  unfold registryWF; infer_instance

/-- Lines 196-200: on Windows-style configurations (`pathSeparator === '\\'`)
every slash in the prompt is normalized to a backslash
(`promptValue.replaceAll(/[\\/]/g, resourceRequestConfig.pathSeparator)`). -/
def normalizePrompt (pathSeparator promptValue : Str) : Str :=
  if pathSeparator == str "\\" then
    promptValue.map (fun c => if isSlashChar c then '\\' else c)
  else promptValue

/-- Line 209: `promptValue.substring(0, cursorPosition)`. -/
def cursorPrefixOf (promptValue : Str) (cursorPosition : Nat) : Str :=
  promptValue.take cursorPosition

/-- Lines 212-214: the last word (or argument); the empty string when the
cursor follows a space:
`cursorPrefix.endsWith(' ') ? '' : cursorPrefix.split(' ').at(-1) ?? ''`. -/
def lastWordOf (promptValue : Str) (cursorPosition : Nat) : Str :=
  let cp := cursorPrefixOf promptValue cursorPosition
  if jsEndsWith (str " ") cp then []
  else ((jsSplitChar ' ' cp).getLast?).getD []

/-- Lines 218-223: the index of the last path separator in the last word. -/
def lastSlashIndexOf (pathSeparator lastWord : Str) : Int :=
  if pathSeparator == str "\\" then
    max (jsLastIndexOfStr (str "\\") lastWord) (jsLastIndexOfStr (str "/") lastWord)
  else jsLastIndexOfStr pathSeparator lastWord

/-- Lines 228-231: the complete folder of the last word
(`lastWord.slice(0, lastSlashIndex + 1)`), with slashes normalized to
backslashes on Windows-style configurations. -/
def lastWordFolderOf (pathSeparator lastWord : Str) : Str :=
  let i := lastSlashIndexOf pathSeparator lastWord
  let f := if i == -1 then [] else lastWord.take (i + 1).toNat
  if pathSeparator == str "\\" then
    f.map (fun c => if c == '/' then '\\' else c)
  else f

/-- Lines 238-240: the absolute-path test; on Windows-style configurations a
drive letter (`/^[a-zA-Z]:[\\\/]/`), otherwise
`lastWord.startsWith(pathSeparator)`. -/
def isAbsolutePathB (useWindowsStylePath : Bool) (pathSeparator lastWord : Str) :
    Bool :=
  if useWindowsStylePath then
    match lastWord with
    | a :: ':' :: c :: _ => a.isAlpha && isSlashChar c
    | _ => false
  else pathSeparator.isPrefixOf lastWord

/-- Line 241: the classification of the folder prefix. -/
inductive PathType where
  | tilde
  | absolute
  | relative
deriving DecidableEq

/-- Line 241: `lastWordFolderHasTildePrefix ? 'tilde' : isAbsolutePath ?
'absolute' : 'relative'`. -/
def pathTypeOf (useWindowsStylePath : Bool)
    (pathSeparator lastWord lastWordFolder : Str) : PathType :=
  if hasTildePrefixB lastWordFolder then .tilde
  else if isAbsolutePathB useWindowsStylePath pathSeparator lastWord then .absolute
  else .relative

/-- Lines 253-255: the placeholder detail used when the home directory is
unknown; weaker wording on Windows-style configurations. -/
def homeDetail (useWindowsStylePath : Bool) : Str :=
  if useWindowsStylePath then str "Home directory" else str "$HOME"

/-- Lines 242-267: the resource the folder prefix denotes: a concrete `URI`
(`Sum.inl`), or a descriptive placeholder string (`Sum.inr`) when the home
directory cannot be read from the shell environment. -/
def lastWordFolderResourceOf (type : PathType) (useWindowsStylePath : Bool)
    (capabilities : CapabilityStore) (cwd : URI) (lastWordFolder : Str) :
    URI ⊕ Str :=
  match type with
  | .tilde =>
    let home : Option Str :=
      match capabilities.shellEnvDetectionEnv with
      | some env =>
        if useWindowsStylePath then List.lookup (str "USERPROFILE") env
        else List.lookup (str "HOME") env
      | none => none
    match home with
    | some h =>
      if h.isEmpty then .inr (homeDetail useWindowsStylePath)
      else .inl (URI.joinPath (URI.file h) (lastWordFolder.drop 1))
    | none => .inr (homeDetail useWindowsStylePath)
  | .absolute => .inl (URI.file lastWordFolder)
  | .relative => .inl cwd

/-- Lines 439-450: `getFriendlyPath`. -/
def getFriendlyPath (uri : URI) (pathSeparator : Str)
    (kind : CompletionItemKind) : Str :=
  let path := uri.fsPath
  let path :=
    if kind == .folder && !jsEndsWith pathSeparator path then
      path ++ pathSeparator
    else path
  if pathSeparator == str "\\" then
    match path with
    | a :: ':' :: '\\' :: rest =>
      if a.isAlpha then a.toUpper :: ':' :: '\\' :: rest else path
    | _ => path
  else path

/-- Lines 456-461: `addPathRelativePrefix`, prepending `./` (with the
configured separator) unless the folder already has a dot prefix. -/
def addPathRelativePrefixFn (text : Str) (pathSeparator : Str)
    (lastWordFolderHasDotPrefixB : Bool) : Str :=
  if !lastWordFolderHasDotPrefixB then '.' :: (pathSeparator ++ text)
  else text

/-- Lines 307-335: the item for the current folder itself, emitted first when
folders were requested. -/
def selfCompletionItems (type : PathType) (foldersRequested : Bool)
    (pathSeparator lastWordFolder : Str) (hasDot : Bool) (resource : URI)
    (provider : Str) (cursorPosition : Nat) (lastWord : Str) :
    List CompletionItem :=
  if foldersRequested then
    let label : Str :=
      match type with
      | .tilde => lastWordFolder
      | .absolute => lastWordFolder
      | .relative =>
        if lastWordFolder.length > 0 then
          addPathRelativePrefixFn lastWordFolder pathSeparator hasDot
        else str "."
    [⟨label, provider, .folder,
      some (getFriendlyPath resource pathSeparator .folder),
      cursorPosition - lastWord.length, lastWord.length, none⟩]
  else []

/-- Lines 343-374, loop body: the item for one direct child, when its kind was
requested. -/
def childCompletionItem (type : PathType)
    (foldersRequested filesRequested : Bool)
    (pathSeparator lastWordFolder : Str) (hasDot : Bool) (provider : Str)
    (cursorPosition : Nat) (lastWord : Str) (child : ChildStat) :
    Option CompletionItem :=
  let kindQ : Option CompletionItemKind :=
    if foldersRequested && child.isDirectory then some .folder
    else if filesRequested && child.isFile then some .file
    else none
  match kindQ with
  | none => none
  | some kind =>
    let label := lastWordFolder
    let label :=
      if label.length > 0 && !jsEndsWith pathSeparator label then
        label ++ pathSeparator
      else label
    let label := label ++ child.name
    let label :=
      if type == .relative then
        addPathRelativePrefixFn label pathSeparator hasDot
      else label
    let label :=
      if child.isDirectory && !jsEndsWith pathSeparator label then
        label ++ pathSeparator
      else label
    some ⟨label, provider, kind,
      some (getFriendlyPath child.resource pathSeparator kind),
      cursorPosition - lastWord.length, lastWord.length, none⟩

/-- Lines 343-374: items for all direct children. -/
def childCompletionItems (type : PathType)
    (foldersRequested filesRequested : Bool)
    (pathSeparator lastWordFolder : Str) (hasDot : Bool) (provider : Str)
    (cursorPosition : Nat) (lastWord : Str) (children : List ChildStat) :
    List CompletionItem :=
  children.filterMap
    (childCompletionItem type foldersRequested filesRequested pathSeparator
      lastWordFolder hasDot provider cursorPosition lastWord)

/-- Lines 385-408, loop body: the items contributed by one CDPATH entry; a
failing lookup is caught and contributes nothing. -/
def cdPathEntryItems (fileService : FileService) (cdPathConfigValue : Str)
    (pathSeparator provider : Str) (cursorPosition : Nat) (lastWord : Str)
    (cdPathEntry : Str) : List CompletionItem :=
  match fileService (URI.file cdPathEntry) with
  | .error _ => []
  | .ok none => []
  | .ok (some fileStat) =>
    match fileStat.children with
    | none => []
    | some children =>
      children.filterMap (fun child =>
        if !child.isDirectory then none
        else
          let useRelative := cdPathConfigValue == str "relative"
          let kind := CompletionItemKind.folder
          let label :=
            if useRelative then basenameOf child.resource.fsPath
            else getFriendlyPath child.resource pathSeparator kind
          let detail :=
            if useRelative then
              str "CDPATH " ++ getFriendlyPath child.resource pathSeparator kind
            else str "CDPATH"
          some ⟨label, provider, kind, some detail,
            cursorPosition - lastWord.length, lastWord.length, none⟩)

/-- Lines 376-412: the `$CDPATH` support for the `cd` command: only for
relative classification with folders requested, a prompt starting with `cd `,
the setting `absolute` or `relative`, and a non-empty `CDPATH` variable. -/
def cdPathCompletionItems (type : PathType) (foldersRequested : Bool)
    (useWindowsStylePath : Bool) (promptValue : Str)
    (configurationService : ConfigurationService)
    (capabilities : CapabilityStore) (fileService : FileService)
    (pathSeparator provider : Str) (cursorPosition : Nat) (lastWord : Str) :
    List CompletionItem :=
  if type == .relative && foldersRequested then
    if (str "cd ").isPrefixOf promptValue then
      let config := configurationService.cdPathValue
      if config == str "absolute" || config == str "relative" then
        match capabilities.shellEnvDetectionEnv with
        | none => []
        | some env =>
          match List.lookup (str "CDPATH") env with
          | none => []
          | some cdPath =>
            if cdPath.isEmpty then []
            else
              (jsSplitChar (if useWindowsStylePath then ';' else ':') cdPath).flatMap
                (cdPathEntryItems fileService config pathSeparator provider
                  cursorPosition lastWord)
      else []
    else []
  else []

/-- Lines 419-433: the parent-directory item appended last for relative
classification with folders requested. -/
def parentCompletionItems (type : PathType) (foldersRequested : Bool)
    (pathSeparator lastWordFolder : Str) (hasDot : Bool) (cwd : URI)
    (provider : Str) (cursorPosition : Nat) (lastWord : Str) :
    List CompletionItem :=
  if type == .relative && foldersRequested then
    let base := str ".." ++ pathSeparator
    let label :=
      if lastWordFolder.length > 0 then
        addPathRelativePrefixFn (lastWordFolder ++ base) pathSeparator hasDot
      else base
    let parentDir := URI.joinPath cwd base
    [⟨label, provider, .folder,
      some (getFriendlyPath parentDir pathSeparator .folder),
      cursorPosition - lastWord.length, lastWord.length, none⟩]
  else []

/-- Lines 208-436 of `resolveResources`, after the early-exit guards: word
extraction, classification, the tilde placeholder or the directory listing,
and the assembled item list.  (The source's `if (!lastWordFolderResource)`
check at line 272 is unreachable: every branch of the classification switch
assigns a resource.) -/
def resolveResourcesWithCwd
    (resourceRequestConfig : TerminalResourceRequestConfig)
    (promptValue : Str) (cursorPosition : Nat) (provider : Str)
    (capabilities : CapabilityStore)
    (configurationService : ConfigurationService) (fileService : FileService)
    (cwd : URI) : Except Str (Option (List CompletionItem)) :=
  let useWindowsStylePath := resourceRequestConfig.pathSeparator == str "\\"
  let foldersRequested := resourceRequestConfig.foldersRequested.getD false
  let filesRequested := resourceRequestConfig.filesRequested.getD false
  let lastWord := lastWordOf promptValue cursorPosition
  let lastWordFolder :=
    lastWordFolderOf resourceRequestConfig.pathSeparator lastWord
  let hasDot := hasDotPrefixB lastWordFolder
  let type :=
    pathTypeOf useWindowsStylePath resourceRequestConfig.pathSeparator lastWord
      lastWordFolder
  match lastWordFolderResourceOf type useWindowsStylePath capabilities cwd
      lastWordFolder with
  | .inr detailText =>
    .ok (some [⟨lastWordFolder, provider, .folder, some detailText,
      cursorPosition - lastWord.length, lastWord.length, none⟩])
  | .inl folderResource =>
    match fileService folderResource with
    | .error e => .error e
    | .ok none => .ok none
    | .ok (some stat) =>
      match stat.children with
      | none => .ok none
      | some children =>
        .ok (some (
          selfCompletionItems type foldersRequested
            resourceRequestConfig.pathSeparator lastWordFolder hasDot
            folderResource provider cursorPosition lastWord
          ++ childCompletionItems type foldersRequested filesRequested
            resourceRequestConfig.pathSeparator lastWordFolder hasDot provider
            cursorPosition lastWord children
          ++ cdPathCompletionItems type foldersRequested useWindowsStylePath
            promptValue configurationService capabilities fileService
            resourceRequestConfig.pathSeparator provider cursorPosition
            lastWord
          ++ parentCompletionItems type foldersRequested
            resourceRequestConfig.pathSeparator lastWordFolder hasDot cwd
            provider cursorPosition lastWord))

/-- Lines 195-436: `resolveResources`.  Normalizes the prompt, exits with no
result when the configuration has no working directory or requests neither
files nor folders, and otherwise resolves the folder prefix. -/
def resolveResources (resourceRequestConfig : TerminalResourceRequestConfig)
    (promptValue : Str) (cursorPosition : Nat) (provider : Str)
    (capabilities : CapabilityStore)
    (configurationService : ConfigurationService) (fileService : FileService) :
    Except Str (Option (List CompletionItem)) :=
  let promptNorm :=
    normalizePrompt resourceRequestConfig.pathSeparator promptValue
  let foldersRequested := resourceRequestConfig.foldersRequested.getD false
  let filesRequested := resourceRequestConfig.filesRequested.getD false
  match resourceRequestConfig.cwd with
  | none => .ok none
  | some cwd =>
    if !foldersRequested && !filesRequested then .ok none
    else
      resolveResourcesWithCwd resourceRequestConfig promptNorm cursorPosition
        provider capabilities configurationService fileService cwd

/-- Line 159: `provider.shellTypes && !provider.shellTypes.includes(shellType)`
means the provider contributes nothing; this is the surviving condition. -/
def shellApplies (p : CompletionProvider) (shellType : TerminalShellType) :
    Bool :=
  match p.shellTypes with
  | none => true
  | some shellTypes => shellTypes.contains shellType

/-- Line 169: `completion.isFileOverride ??= completion.kind === Method &&
completion.replacementIndex === 0`. -/
def powershellStamp (c : CompletionItem) : CompletionItem :=
  match c.isFileOverride with
  | some _ => c
  | none => setIsFileOverride c (c.kind == .method && c.replacementIndex == 0)

/-- Lines 167-177: the PowerShell `isFileOverride` stamp followed by the
builtin provider-id stamp, applied to a provider's own items. -/
def stampCompletionItems (shellType : TerminalShellType)
    (p : CompletionProvider) (items : List CompletionItem) :
    List CompletionItem :=
  let items :=
    if shellType == .powershell then items.map powershellStamp else items
  if jsTruthy p.isBuiltin then items.map (fun c => setProvider c p.id)
  else items

/-- Lines 158-189: `_collectCompletions`, per-provider body: shell-type
filter, provider invocation, stamping, and the resource side channel. -/
def collectFromProvider (configurationService : ConfigurationService)
    (fileService : FileService) (capabilities : CapabilityStore)
    (shellType : TerminalShellType) (promptValue : Str)
    (cursorPosition : Nat) (p : CompletionProvider) :
    Except Str (Option (List CompletionItem)) :=
  if !shellApplies p shellType then .ok none
  else
    match p.provide promptValue cursorPosition with
    | .error e => .error e
    | .ok none => .ok none
    | .ok (some completions) =>
      let base :=
        match completions with
        | .items l => l
        | .list items _ => items.getD []
      let completionItems := stampCompletionItems shellType p base
      match completions with
      | .items _ => .ok (some completionItems)
      | .list _ resourceRequestConfig =>
        match resourceRequestConfig with
        | none => .ok none
        | some c =>
          match resolveResources c promptValue cursorPosition p.id
              capabilities configurationService fileService with
          | .error e => .error e
          | .ok resourceCompletions =>
            .ok (some (completionItems ++ resourceCompletions.getD []))

/-- `Promise.all` over a list of fallible computations: the first rejection
rejects the whole aggregation, otherwise results are collected in order. -/
def collectAll {α β : Type} (f : α → Except Str β) : List α →
    Except Str (List β)
  | [] => .ok []
  | a :: rest =>
    match f a with
    | .error e => .error e
    | .ok b =>
      match collectAll f rest with
      | .error e => .error e
      | .ok bs => .ok (b :: bs)

/-- Lines 157-193: `_collectCompletions`: invoke every provider, drop the
`undefined` contributions, and flatten (`results.filter(r => !!r).flat()`). -/
def collectCompletions (configurationService : ConfigurationService)
    (fileService : FileService) (providers : List CompletionProvider)
    (shellType : TerminalShellType) (promptValue : Str)
    (cursorPosition : Nat) (capabilities : CapabilityStore) :
    Except Str (List CompletionItem) :=
  match collectAll
      (collectFromProvider configurationService fileService capabilities
        shellType promptValue cursorPosition) providers with
  | .error e => .error e
  | .ok results => .ok ((results.filterMap id).flatten)

/-- Wrap `_collectCompletions`' always-an-array result into the
`array | undefined` result type of `provideCompletions`. -/
def exceptSome (e : Except Str (List CompletionItem)) :
    Except Str (Option (List CompletionItem)) :=
  match e with
  | .error err => .error err
  | .ok l => .ok (some l)

/-- Lines 122-133: a provider is requested on a trigger-character-initiated
request when some of its trigger characters ends the prompt truncated at the
cursor (`promptValue.substring(0, cursorPosition)?.endsWith(char)`). -/
def triggerMatches (promptValue : Str) (cursorPosition : Nat)
    (p : CompletionProvider) : Bool :=
  match p.triggerCharacters with
  | none => false
  | some chars =>
    chars.any (fun ch => jsEndsWith ch (promptValue.take cursorPosition))

/-- Lines 121-134: the providers requested on a trigger-character-initiated
request, in registry iteration order. -/
def triggerSelectedProviders (st : Registry) (promptValue : Str)
    (cursorPosition : Nat) : List CompletionProvider :=
  (registryProviders st).filter (triggerMatches promptValue cursorPosition)

/-- Lines 145-148: `providerId && providerId in providerConfig &&
providerConfig[providerId] !== false`. -/
def configEnabled (providersConfig : List (Str × Bool)) (providerId : Str) :
    Bool :=
  !providerId.isEmpty && (List.lookup providerId providersConfig).isSome &&
    !(List.lookup providerId providersConfig == some false)

/-- Lines 115-155: `provideCompletions`.  The guard at line 116 also tests
`!this._providers || !this._providers.values`, which never holds for the
always-initialized registry field, so only `cursorPosition < 0` remains. -/
def provideCompletions (st : Registry)
    (configurationService : ConfigurationService) (fileService : FileService)
    (promptValue : Str) (cursorPosition : Int)
    (shellType : TerminalShellType) (capabilities : CapabilityStore)
    (triggerCharacter : Bool) (skipExtensionCompletions : Bool) :
    Except Str (Option (List CompletionItem)) :=
  if cursorPosition < 0 then .ok none
  else
    let cp := cursorPosition.toNat
    let selected :=
      if triggerCharacter then triggerSelectedProviders st promptValue cp
      else registryProviders st
    if skipExtensionCompletions then
      exceptSome (collectCompletions configurationService fileService
        (selected.filter (fun p => jsTruthy p.isBuiltin)) shellType
        promptValue cp capabilities)
    else
      let enabled :=
        selected.filter
          (fun p => configEnabled configurationService.providersConfig p.id)
      if enabled.isEmpty then .ok none
      else
        exceptSome (collectCompletions configurationService fileService
          enabled shellType promptValue cp capabilities)

/-- The provider list `provideCompletions` hands to `_collectCompletions`
after trigger selection and the builtin or configuration filter. -/
def finalProviders (st : Registry)
    (configurationService : ConfigurationService) (promptValue : Str)
    (cursorPosition : Nat) (triggerCharacter skipExtensionCompletions : Bool) :
    List CompletionProvider :=
  let selected :=
    if triggerCharacter then
      triggerSelectedProviders st promptValue cursorPosition
    else registryProviders st
  if skipExtensionCompletions then
    selected.filter (fun p => jsTruthy p.isBuiltin)
  else
    selected.filter
      (fun p => configEnabled configurationService.providersConfig p.id)

/-- The claim's description of the current word, transcribed from the spec's
words for comparison with the source's `lastWordOf`: the substring of the
prompt between the last whitespace character before the cursor and the
cursor (empty when the character before the cursor is whitespace). -/
def specCurrentWord (promptValue : Str) (cursorPosition : Nat) : Str :=
  (((promptValue.take cursorPosition).reverse.takeWhile
    (fun c => !c.isWhitespace)).reverse)

/-- The amended description: as `specCurrentWord`, but splitting only at the
space character `' '` rather than at arbitrary whitespace. -/
def specCurrentWordSpace (promptValue : Str) (cursorPosition : Nat) : Str :=
  (((promptValue.take cursorPosition).reverse.takeWhile
    (fun c => !(c == ' '))).reverse)

/-! ### Association-list lemmas for the registry -/

theorem lookup_cons_self {β : Type} (k a : Str) (w : β)
    (tl : List (Str × β)) (h : k = a) :
    List.lookup k ((a, w) :: tl) = some w := by
  subst h
  simp [List.lookup_cons]

theorem lookup_cons_diff {β : Type} (k a : Str) (w : β)
    (tl : List (Str × β)) (h : k ≠ a) :
    List.lookup k ((a, w) :: tl) = List.lookup k tl := by
  have hb : (k == a) = false := beq_eq_false_iff_ne.mpr h
  simp [List.lookup_cons, hb]

theorem lookup_assocSet_self {β : Type} (k : Str) (v : β)
    (m : List (Str × β)) : List.lookup k (assocSet k v m) = some v := by
  induction m with
  | nil => simp [assocSet, lookup_cons_self]
  | cons hd tl ih =>
    obtain ⟨a, w⟩ := hd
    by_cases h : a = k
    · rw [assocSet, if_pos h, lookup_cons_self k a v tl h.symm]
    · rw [assocSet, if_neg h, lookup_cons_diff k a w _ (fun hc => h hc.symm)]
      exact ih

theorem lookup_assocSet_ne {β : Type} (k kk : Str) (v : β)
    (m : List (Str × β)) (h : kk ≠ k) :
    List.lookup kk (assocSet k v m) = List.lookup kk m := by
  induction m with
  | nil => simp [assocSet, lookup_cons_diff kk k v [] h]
  | cons hd tl ih =>
    obtain ⟨a, w⟩ := hd
    by_cases hh : a = k
    · have hne : kk ≠ a := fun hc => h (hc.trans hh)
      rw [assocSet, if_pos hh, lookup_cons_diff kk a v tl hne,
        lookup_cons_diff kk a w tl hne]
    · by_cases hkk : kk = a
      · rw [assocSet, if_neg hh, lookup_cons_self kk a w _ hkk,
          lookup_cons_self kk a w tl hkk]
      · rw [assocSet, if_neg hh, lookup_cons_diff kk a w _ hkk,
          lookup_cons_diff kk a w tl hkk, ih]

theorem lookup_assocDelete_self {β : Type} (k : Str) (m : List (Str × β)) :
    List.lookup k (assocDelete k m) = none := by
  induction m with
  | nil => rfl
  | cons hd tl ih =>
    obtain ⟨a, w⟩ := hd
    by_cases h : a = k
    · rw [assocDelete, if_pos h]; exact ih
    · rw [assocDelete, if_neg h, lookup_cons_diff k a w _ (fun hc => h hc.symm)]
      exact ih

theorem lookup_assocDelete_ne {β : Type} (k kk : Str) (m : List (Str × β))
    (h : kk ≠ k) :
    List.lookup kk (assocDelete k m) = List.lookup kk m := by
  induction m with
  | nil => rfl
  | cons hd tl ih =>
    obtain ⟨a, w⟩ := hd
    by_cases hh : a = k
    · rw [assocDelete, if_pos hh, ih,
        lookup_cons_diff kk a w tl (fun hc => h (hc.trans hh))]
    · by_cases hkk : kk = a
      · rw [assocDelete, if_neg hh, lookup_cons_self kk a w _ hkk,
          lookup_cons_self kk a w tl hkk]
      · rw [assocDelete, if_neg hh, lookup_cons_diff kk a w _ hkk,
          lookup_cons_diff kk a w tl hkk, ih]

theorem assocSet_assocSet {β : Type} (k : Str) (v vv : β)
    (m : List (Str × β)) :
    assocSet k vv (assocSet k v m) = assocSet k vv m := by
  induction m with
  | nil => simp [assocSet]
  | cons hd tl ih =>
    obtain ⟨a, w⟩ := hd
    by_cases h : a = k
    · rw [assocSet, if_pos h, assocSet, if_pos h, assocSet, if_pos h]
    · rw [assocSet, if_neg h, assocSet, if_neg h, assocSet, if_neg h, ih]

theorem assocDelete_nil_keys {β : Type} (k : Str) (m : List (Str × β))
    (h : assocDelete k m = []) : ∀ x ∈ m, x.1 = k := by
  induction m with
  | nil => intro x hx; cases hx
  | cons hd tl ih =>
    obtain ⟨a, w⟩ := hd
    intro x hx
    by_cases hh : a = k
    · rw [assocDelete, if_pos hh] at h
      rcases List.mem_cons.mp hx with hx | hx
      · rw [hx]; exact hh
      · exact ih h x hx
    · rw [assocDelete, if_neg hh] at h
      cases h

theorem lookup_none_of_all_keys {β : Type} (k kk : Str) (m : List (Str × β))
    (hall : ∀ x ∈ m, x.1 = k) (h : kk ≠ k) : List.lookup kk m = none := by
  induction m with
  | nil => rfl
  | cons hd tl ih =>
    obtain ⟨a, w⟩ := hd
    have h1 : a = k := hall (a, w) (List.mem_cons_self (a, w) tl)
    rw [lookup_cons_diff kk a w tl (fun hc => h (hc.trans h1))]
    exact ih (fun x hx => hall x (List.mem_cons_of_mem (a, w) hx))

theorem lookup_none_keys {β : Type} (k : Str) (m : List (Str × β))
    (h : List.lookup k m = none) : ∀ x ∈ m, x.1 ≠ k := by
  induction m with
  | nil => intro x hx; cases hx
  | cons hd tl ih =>
    obtain ⟨a, w⟩ := hd
    intro x hx
    by_cases hh : k = a
    · rw [lookup_cons_self k a w tl hh] at h
      cases h
    · rcases List.mem_cons.mp hx with hx | hx
      · rw [hx]; exact fun hc => hh hc.symm
      · rw [lookup_cons_diff k a w tl hh] at h
        exact ih h x hx

theorem lookup_mem {β : Type} (k : Str) (m : List (Str × β)) (b : β)
    (h : List.lookup k m = some b) : (k, b) ∈ m := by
  induction m with
  | nil => cases h
  | cons hd tl ih =>
    obtain ⟨a, w⟩ := hd
    by_cases hh : k = a
    · rw [lookup_cons_self k a w tl hh] at h
      have hwb : w = b := by injection h
      rw [hh, ← hwb]
      exact List.mem_cons_self (a, w) tl
    · rw [lookup_cons_diff k a w tl hh] at h
      exact List.mem_cons_of_mem (a, w) (ih h)

theorem mem_assocSet_of_nodup {β : Type} (k : Str) (v : β)
    (m : List (Str × β)) (hnd : (m.map (fun x => x.1)).Nodup)
    (y : Str × β) (hy : y ∈ assocSet k v m) (hk : (List.lookup k m).isSome) :
    y = (k, v) ∨ (y ∈ m ∧ y.1 ≠ k) := by
  induction m with
  | nil => simp [List.lookup] at hk
  | cons hd tl ih =>
    obtain ⟨a, w⟩ := hd
    have hnd2 := List.nodup_cons.mp
      (show (a :: tl.map (fun x => x.1)).Nodup from hnd)
    by_cases hh : a = k
    · rw [assocSet, if_pos hh] at hy
      rcases List.mem_cons.mp hy with hy | hy
      · left; rw [hy, hh]
      · right
        refine ⟨List.mem_cons_of_mem (a, w) hy, ?_⟩
        intro hc
        exact hnd2.1 (hh ▸ hc ▸ List.mem_map_of_mem (fun x => x.1) hy)
    · rw [assocSet, if_neg hh] at hy
      rcases List.mem_cons.mp hy with hy | hy
      · right
        refine ⟨by rw [hy]; exact List.mem_cons_self (a, w) tl, ?_⟩
        rw [hy]; exact hh
      · have hk2 : (List.lookup k tl).isSome := by
          rw [lookup_cons_diff k a w tl (fun hc => hh hc.symm)] at hk
          exact hk
        rcases ih hnd2.2 hy hk2 with hcase | hcase
        · exact Or.inl hcase
        · exact Or.inr ⟨List.mem_cons_of_mem (a, w) hcase.1, hcase.2⟩

/-! ### Lemmas about `jsSplitChar` and the extracted last word -/

theorem jsSplitChar_ne_nil (sep : Char) (l : Str) : jsSplitChar sep l ≠ [] := by
  cases l with
  | nil => simp [jsSplitChar]
  | cons c rest =>
    simp only [jsSplitChar]
    split
    · simp
    · split <;> simp

theorem jsSplitChar_not_mem (sep : Char) (l : Str) (h : sep ∉ l) :
    jsSplitChar sep l = [l] := by
  induction l with
  | nil => rfl
  | cons c rest ih =>
    have hc : (c == sep) = false :=
      beq_eq_false_iff_ne.mpr (fun hcc => h (hcc ▸ List.mem_cons_self c rest))
    have hr : jsSplitChar sep rest = [rest] :=
      ih (fun hm => h (List.mem_cons_of_mem c hm))
    simp [jsSplitChar, hc, hr]

theorem jsSplitChar_mem_sep (sep : Char) (l : Str) (h : sep ∈ l) :
    ∃ w ws, jsSplitChar sep l = w :: ws ∧ ws ≠ [] := by
  induction l with
  | nil => cases h
  | cons c rest ih =>
    by_cases hc : c = sep
    · refine ⟨[], jsSplitChar sep rest, ?_, jsSplitChar_ne_nil sep rest⟩
      have hcb : (c == sep) = true := beq_iff_eq.mpr hc
      simp [jsSplitChar, hcb]
    · have hmem : sep ∈ rest := by
        rcases List.mem_cons.mp h with h | h
        · exact absurd h.symm hc
        · exact h
      rcases ih hmem with ⟨w, ws, hw, hws⟩
      have hcb : (c == sep) = false := beq_eq_false_iff_ne.mpr hc
      refine ⟨c :: w, ws, ?_, hws⟩
      simp [jsSplitChar, hcb, hw]

theorem jsSplitChar_mem_length (sep : Char) (l : Str) :
    ∀ w ∈ jsSplitChar sep l, w.length ≤ l.length := by
  induction l with
  | nil =>
    intro w hw
    simp [jsSplitChar] at hw
    simp [hw]
  | cons c rest ih =>
    intro w hw
    by_cases hc : (c == sep) = true
    · simp only [jsSplitChar, hc, if_true] at hw
      rcases List.mem_cons.mp hw with hw | hw
      · simp [hw]
      · exact le_trans (ih w hw) (Nat.le_succ _)
    · have hcb : (c == sep) = false := by
        cases hb : (c == sep) with
        | true => exact absurd hb hc
        | false => rfl
      cases hr : jsSplitChar sep rest with
      | nil => exact absurd hr (jsSplitChar_ne_nil sep rest)
      | cons w0 ws =>
        simp only [jsSplitChar, hcb, Bool.false_eq_true, if_false, hr] at hw
        rcases List.mem_cons.mp hw with hw | hw
        · have h0 : w0 ∈ jsSplitChar sep rest := by
            rw [hr]; exact List.mem_cons_self w0 ws
          rw [hw]
          simpa using Nat.succ_le_succ (ih w0 h0)
        · have h0 : w ∈ jsSplitChar sep rest := by
            rw [hr]; exact List.mem_cons_of_mem w0 hw
          exact le_trans (ih w h0) (Nat.le_succ _)

theorem mem_of_getLastQ {α : Type} (l : List α) (a : α)
    (h : l.getLast? = some a) : a ∈ l := by
  induction l with
  | nil => cases h
  | cons x xs ih =>
    cases xs with
    | nil =>
      have : x = a := by
        simpa [List.getLast?] using h
      rw [this]
      exact List.mem_cons_self a []
    | cons y ys =>
      rw [List.getLast?_cons_cons] at h
      exact List.mem_cons_of_mem x (ih h)

theorem getLastQ_cons_of_ne_nil {α : Type} (a : α) (l : List α)
    (h : l ≠ []) : (a :: l).getLast? = l.getLast? := by
  cases l with
  | nil => exact absurd rfl h
  | cons y ys => exact List.getLast?_cons_cons

theorem takeWhile_append_all {α : Type} (p : α → Bool) (xs ys : List α)
    (h : ∀ x ∈ xs, p x = true) :
    (xs ++ ys).takeWhile p = xs ++ ys.takeWhile p := by
  induction xs with
  | nil => simp
  | cons a l ih =>
    have ha := h a (List.mem_cons_self a l)
    simp only [List.cons_append, List.takeWhile_cons, ha, if_true]
    rw [ih (fun x hx => h x (List.mem_cons_of_mem a hx))]

theorem takeWhile_append_stop {α : Type} (p : α → Bool) (xs ys : List α)
    (h : ∃ x ∈ xs, p x = false) :
    (xs ++ ys).takeWhile p = xs.takeWhile p := by
  induction xs with
  | nil =>
    rcases h with ⟨x, hx, _⟩
    cases hx
  | cons a l ih =>
    by_cases ha : p a = true
    · have h2 : ∃ x ∈ l, p x = false := by
        rcases h with ⟨x, hx, hpx⟩
        rcases List.mem_cons.mp hx with hx | hx
        · rw [hx] at hpx; rw [hpx] at ha; cases ha
        · exact ⟨x, hx, hpx⟩
      simp only [List.cons_append, List.takeWhile_cons, ha, if_true]
      rw [ih h2]
    · have ha2 : p a = false := by
        cases hb : p a with
        | true => exact absurd hb ha
        | false => rfl
      simp [List.takeWhile_cons, ha2]

theorem jsSplitChar_getLastQ (sep : Char) (l : Str) :
    ((jsSplitChar sep l).getLast?).getD [] =
      (l.reverse.takeWhile (fun c => !(c == sep))).reverse := by
  induction l with
  | nil => rfl
  | cons c rest ih =>
    by_cases hmem : sep ∈ rest
    · have hstop : ∃ x ∈ rest.reverse, (!(x == sep)) = false :=
        ⟨sep, List.mem_reverse.mpr hmem, by simp⟩
      have htw : (c :: rest).reverse.takeWhile (fun c => !(c == sep)) =
          rest.reverse.takeWhile (fun c => !(c == sep)) := by
        rw [List.reverse_cons]
        exact takeWhile_append_stop _ rest.reverse [c] hstop
      rcases jsSplitChar_mem_sep sep rest hmem with ⟨w, ws, hw, hws⟩
      by_cases hc : (c == sep) = true
      · have hsplit : jsSplitChar sep (c :: rest) =
            [] :: jsSplitChar sep rest := by
          simp [jsSplitChar, hc]
        rw [hsplit, getLastQ_cons_of_ne_nil [] _ (jsSplitChar_ne_nil sep rest),
          htw]
        exact ih
      · have hcb : (c == sep) = false := by
          cases hb : (c == sep) with
          | true => exact absurd hb hc
          | false => rfl
        have hsplit : jsSplitChar sep (c :: rest) = (c :: w) :: ws := by
          simp [jsSplitChar, hcb, hw]
        rw [hsplit, getLastQ_cons_of_ne_nil (c :: w) ws hws, htw, ← ih, hw,
          getLastQ_cons_of_ne_nil w ws hws]
    · have hall : ∀ x ∈ rest.reverse, (!(x == sep)) = true := by
        intro x hx
        have hxr : x ∈ rest := List.mem_reverse.mp hx
        have : (x == sep) = false :=
          beq_eq_false_iff_ne.mpr (fun hc => hmem (hc ▸ hxr))
        simp [this]
      have hr : jsSplitChar sep rest = [rest] := jsSplitChar_not_mem sep rest hmem
      by_cases hc : (c == sep) = true
      · have hsplit : jsSplitChar sep (c :: rest) =
            [] :: jsSplitChar sep rest := by
          simp [jsSplitChar, hc]
        have hqc : (!(c == sep)) = false := by simp [hc]
        rw [hsplit, hr]
        have htw : (c :: rest).reverse.takeWhile (fun c => !(c == sep)) =
            rest.reverse := by
          rw [List.reverse_cons, takeWhile_append_all _ rest.reverse [c] hall]
          simp [List.takeWhile_cons, hqc]
        rw [htw]
        simp
      · have hcb : (c == sep) = false := by
          cases hb : (c == sep) with
          | true => exact absurd hb hc
          | false => rfl
        have hsplit : jsSplitChar sep (c :: rest) = [c :: rest] := by
          simp [jsSplitChar, hcb, hr]
        have hqc : (!(c == sep)) = true := by simp [hcb]
        have htw : (c :: rest).reverse.takeWhile (fun c => !(c == sep)) =
            rest.reverse ++ [c] := by
          rw [List.reverse_cons, takeWhile_append_all _ rest.reverse [c] hall]
          simp [List.takeWhile_cons, hqc]
        rw [hsplit, htw]
        simp

theorem lastWordOf_eq_specSpace (promptValue : Str) (cursorPosition : Nat) :
    lastWordOf promptValue cursorPosition =
      specCurrentWordSpace promptValue cursorPosition := by
  unfold lastWordOf specCurrentWordSpace cursorPrefixOf
  by_cases h : jsEndsWith (str " ") (promptValue.take cursorPosition)
  · simp only [h, if_true]
    have hsuf : str " " <:+ promptValue.take cursorPosition := by
      simpa [jsEndsWith, List.isSuffixOf] using h
    obtain ⟨t, ht⟩ := hsuf
    rw [← ht]
    have : (t ++ str " ").reverse = ' ' :: t.reverse := by simp [str]
    rw [this]
    simp [List.takeWhile_cons]
  · simp only [h, if_false, Bool.false_eq_true]
    exact jsSplitChar_getLastQ ' ' (promptValue.take cursorPosition)

theorem lastWordOf_length_le (promptValue : Str) (cursorPosition : Nat) :
    (lastWordOf promptValue cursorPosition).length ≤ cursorPosition := by
  unfold lastWordOf cursorPrefixOf
  by_cases h : jsEndsWith (str " ") (promptValue.take cursorPosition)
  · simp [h]
  · simp only [h, if_false, Bool.false_eq_true]
    cases hg : (jsSplitChar ' ' (promptValue.take cursorPosition)).getLast? with
    | none => simp
    | some w =>
      simp only [Option.getD_some]
      exact le_trans
        (jsSplitChar_mem_length ' ' _ w (mem_of_getLastQ _ w hg))
        (List.length_take_le cursorPosition promptValue)

/-! ### Replacement-span lemmas for every emitted item -/

theorem selfCompletionItems_span (type : PathType) (foldersRequested : Bool)
    (pathSeparator lastWordFolder : Str) (hasDot : Bool) (resource : URI)
    (provider : Str) (cursorPosition : Nat) (lastWord : Str) :
    ∀ it ∈ selfCompletionItems type foldersRequested pathSeparator
        lastWordFolder hasDot resource provider cursorPosition lastWord,
      it.replacementIndex = cursorPosition - lastWord.length ∧
        it.replacementLength = lastWord.length := by
  intro it hit
  unfold selfCompletionItems at hit
  split at hit
  · rw [List.mem_singleton] at hit
    rw [hit]
    exact ⟨rfl, rfl⟩
  · cases hit

theorem childCompletionItems_span (type : PathType)
    (foldersRequested filesRequested : Bool)
    (pathSeparator lastWordFolder : Str) (hasDot : Bool) (provider : Str)
    (cursorPosition : Nat) (lastWord : Str) (children : List ChildStat) :
    ∀ it ∈ childCompletionItems type foldersRequested filesRequested
        pathSeparator lastWordFolder hasDot provider cursorPosition lastWord
        children,
      it.replacementIndex = cursorPosition - lastWord.length ∧
        it.replacementLength = lastWord.length := by
  intro it hit
  unfold childCompletionItems at hit
  rcases List.mem_filterMap.mp hit with ⟨child, _, hc⟩
  unfold childCompletionItem at hc
  simp only [] at hc
  split at hc
  · cases hc
  · cases hc
    exact ⟨rfl, rfl⟩

theorem cdPathEntryItems_span (fileService : FileService)
    (cdPathConfigValue pathSeparator provider : Str) (cursorPosition : Nat)
    (lastWord cdPathEntry : Str) :
    ∀ it ∈ cdPathEntryItems fileService cdPathConfigValue pathSeparator
        provider cursorPosition lastWord cdPathEntry,
      it.replacementIndex = cursorPosition - lastWord.length ∧
        it.replacementLength = lastWord.length := by
  intro it hit
  unfold cdPathEntryItems at hit
  split at hit
  · cases hit
  · cases hit
  · split at hit
    · cases hit
    · rcases List.mem_filterMap.mp hit with ⟨child, _, hc⟩
      simp only [] at hc
      split at hc
      · cases hc
      · cases hc
        exact ⟨rfl, rfl⟩

theorem cdPathCompletionItems_span (type : PathType) (foldersRequested : Bool)
    (useWindowsStylePath : Bool) (promptValue : Str)
    (configurationService : ConfigurationService)
    (capabilities : CapabilityStore) (fileService : FileService)
    (pathSeparator provider : Str) (cursorPosition : Nat) (lastWord : Str) :
    ∀ it ∈ cdPathCompletionItems type foldersRequested useWindowsStylePath
        promptValue configurationService capabilities fileService
        pathSeparator provider cursorPosition lastWord,
      it.replacementIndex = cursorPosition - lastWord.length ∧
        it.replacementLength = lastWord.length := by
  intro it hit
  unfold cdPathCompletionItems at hit
  simp only [] at hit
  split at hit
  · split at hit
    · split at hit
      · split at hit
        · cases hit
        · split at hit
          · cases hit
          · split at hit
            · cases hit
            · rcases List.mem_flatMap.mp hit with ⟨entry, _, hmem⟩
              exact cdPathEntryItems_span fileService _ pathSeparator provider
                cursorPosition lastWord entry it hmem
      · cases hit
    · cases hit
  · cases hit

theorem parentCompletionItems_span (type : PathType) (foldersRequested : Bool)
    (pathSeparator lastWordFolder : Str) (hasDot : Bool) (cwd : URI)
    (provider : Str) (cursorPosition : Nat) (lastWord : Str) :
    ∀ it ∈ parentCompletionItems type foldersRequested pathSeparator
        lastWordFolder hasDot cwd provider cursorPosition lastWord,
      it.replacementIndex = cursorPosition - lastWord.length ∧
        it.replacementLength = lastWord.length := by
  intro it hit
  unfold parentCompletionItems at hit
  split at hit
  · rw [List.mem_singleton] at hit
    rw [hit]
    exact ⟨rfl, rfl⟩
  · cases hit

theorem resolveResourcesWithCwd_span
    (resourceRequestConfig : TerminalResourceRequestConfig)
    (promptValue : Str) (cursorPosition : Nat) (provider : Str)
    (capabilities : CapabilityStore)
    (configurationService : ConfigurationService) (fileService : FileService)
    (cwd : URI) (items : List CompletionItem)
    (h : resolveResourcesWithCwd resourceRequestConfig promptValue
        cursorPosition provider capabilities configurationService fileService
        cwd = .ok (some items)) :
    ∀ it ∈ items,
      it.replacementIndex =
        cursorPosition - (lastWordOf promptValue cursorPosition).length ∧
        it.replacementLength = (lastWordOf promptValue cursorPosition).length := by
  intro it hit
  unfold resolveResourcesWithCwd at h
  simp only [] at h
  split at h
  · cases h
    rw [List.mem_singleton] at hit
    rw [hit]
    exact ⟨rfl, rfl⟩
  · split at h
    · cases h
    · cases h
    · split at h
      · cases h
      · cases h
        rcases List.mem_append.mp hit with hit | hit
        · rcases List.mem_append.mp hit with hit | hit
          · rcases List.mem_append.mp hit with hit | hit
            · exact selfCompletionItems_span _ _ _ _ _ _ _ _ _ it hit
            · exact childCompletionItems_span _ _ _ _ _ _ _ _ _ _ it hit
          · exact cdPathCompletionItems_span _ _ _ _ _ _ _ _ _ _ _ it hit
        · exact parentCompletionItems_span _ _ _ _ _ _ _ _ _ it hit

/-! ### Claim theorems -/

/-- C1: every completion item emitted by `resolveResources` for a single
request carries the same replacement span: `replacementIndex` is the cursor
position minus the length of the extracted current word, `replacementLength`
is the length of the extracted current word, and their sum is the cursor
offset — for the tilde placeholder, the self-folder item, child items, CDPATH
items, and the parent-directory item alike. -/
theorem c1_resolveResources_replacement_span
    (resourceRequestConfig : TerminalResourceRequestConfig)
    (promptValue : Str) (cursorPosition : Nat) (provider : Str)
    (capabilities : CapabilityStore)
    (configurationService : ConfigurationService) (fileService : FileService)
    (items : List CompletionItem)
    (h : resolveResources resourceRequestConfig promptValue cursorPosition
        provider capabilities configurationService fileService =
        .ok (some items)) :
    ∀ it ∈ items,
      it.replacementIndex = cursorPosition -
        (lastWordOf (normalizePrompt resourceRequestConfig.pathSeparator
          promptValue) cursorPosition).length ∧
      it.replacementLength =
        (lastWordOf (normalizePrompt resourceRequestConfig.pathSeparator
          promptValue) cursorPosition).length ∧
      it.replacementIndex + it.replacementLength = cursorPosition := by
  intro it hit
  unfold resolveResources at h
  simp only [] at h
  split at h
  · simp at h
  · split at h
    · simp at h
    · have hspan := resolveResourcesWithCwd_span _ _ _ _ _ _ _ _ _ h it hit
      refine ⟨hspan.1, hspan.2, ?_⟩
      rw [hspan.1, hspan.2]
      exact Nat.sub_add_cancel (lastWordOf_length_le _ _)

/-- C2: every call to `provideCompletions` with a negative cursor position
returns no result (`undefined`), regardless of the prompt, shell type,
trigger flag, builtin-only flag, or registered providers, and invokes no
provider. -/
theorem c2_negative_cursor_no_result (st : Registry)
    (configurationService : ConfigurationService) (fileService : FileService)
    (promptValue : Str) (cursorPosition : Int)
    (shellType : TerminalShellType) (capabilities : CapabilityStore)
    (triggerCharacter skipExtensionCompletions : Bool)
    (h : cursorPosition < 0) :
    provideCompletions st configurationService fileService promptValue
      cursorPosition shellType capabilities triggerCharacter
      skipExtensionCompletions = .ok none := by
  unfold provideCompletions
  rw [if_pos h]

/-- C3: on a trigger-character-initiated request, a registered provider is
selected if and only if some string in its trigger-character set is a suffix
of the prompt truncated at the cursor; a provider whose trigger-character set
is absent or empty is never selected by this path. -/
theorem c3_trigger_character_selection (st : Registry) (promptValue : Str)
    (cursorPosition : Nat) (p : CompletionProvider)
    (hp : p ∈ registryProviders st) :
    (p ∈ triggerSelectedProviders st promptValue cursorPosition ↔
      ∃ chars, p.triggerCharacters = some chars ∧
        ∃ ch ∈ chars, jsEndsWith ch (promptValue.take cursorPosition) = true)
    ∧ ((p.triggerCharacters = none ∨ p.triggerCharacters = some []) →
        p ∉ triggerSelectedProviders st promptValue cursorPosition) := by
  constructor
  · constructor
    · intro hmem
      have ht : triggerMatches promptValue cursorPosition p = true :=
        (List.mem_filter.mp hmem).2
      cases htc : p.triggerCharacters with
      | none =>
        simp only [triggerMatches, htc] at ht
        exact Bool.noConfusion ht
      | some chars =>
        simp only [triggerMatches, htc] at ht
        rcases List.any_eq_true.mp ht with ⟨ch, hch, hend⟩
        exact ⟨chars, rfl, ch, hch, hend⟩
    · rintro ⟨chars, htc, ch, hch, hend⟩
      refine List.mem_filter.mpr ⟨hp, ?_⟩
      simp only [triggerMatches, htc]
      exact List.any_eq_true.mpr ⟨ch, hch, hend⟩
  · intro hne hmem
    have ht : triggerMatches promptValue cursorPosition p = true :=
      (List.mem_filter.mp hmem).2
    rcases hne with htc | htc <;> simp only [triggerMatches, htc] at ht
    · exact Bool.noConfusion ht
    · simp at ht

/-- C4: with `skipExtensionCompletions` false, a provider survives the
configuration filter only if its id is a key of the enablement mapping and is
not mapped to `false`; when zero providers survive, `provideCompletions`
returns no result (`undefined`) immediately — distinguishable from an empty
list — without invoking any provider. -/
theorem c4_configuration_filter (st : Registry)
    (configurationService : ConfigurationService) (fileService : FileService)
    (promptValue : Str) (cursorPosition : Int)
    (shellType : TerminalShellType) (capabilities : CapabilityStore)
    (triggerCharacter : Bool) (hcp : ¬cursorPosition < 0) :
    (∀ p ∈ finalProviders st configurationService promptValue
        cursorPosition.toNat triggerCharacter false,
      (List.lookup p.id configurationService.providersConfig).isSome = true ∧
        List.lookup p.id configurationService.providersConfig ≠ some false)
    ∧ (finalProviders st configurationService promptValue
        cursorPosition.toNat triggerCharacter false = [] →
      provideCompletions st configurationService fileService promptValue
        cursorPosition shellType capabilities triggerCharacter false =
        .ok none)
    ∧ ((Except.ok none : Except Str (Option (List CompletionItem))) ≠
        .ok (some [])) := by
  have hfalse : ¬((false : Bool) = true) := by simp
  refine ⟨?_, ?_, by simp⟩
  · intro p hp
    unfold finalProviders at hp
    simp only [] at hp
    rw [if_neg hfalse] at hp
    have hce : configEnabled configurationService.providersConfig p.id =
        true := (List.mem_filter.mp hp).2
    unfold configEnabled at hce
    rw [Bool.and_eq_true, Bool.and_eq_true] at hce
    obtain ⟨⟨_, h2⟩, h3⟩ := hce
    refine ⟨h2, ?_⟩
    intro hc
    rw [Bool.not_eq_true'] at h3
    rw [hc] at h3
    simp at h3
  · intro hnil
    unfold finalProviders at hnil
    simp only [] at hnil
    rw [if_neg hfalse] at hnil
    unfold provideCompletions
    rw [if_neg hcp]
    simp only []
    rw [if_neg hfalse, hnil]
    rfl

/-- C9: with `skipExtensionCompletions` true and no registered builtin
provider, `provideCompletions` with a non-negative cursor position returns an
empty list, not no-result: the immediate no-result shortcut applies only on
the configuration-filtered path. -/
theorem c9_builtin_only_empty_list (st : Registry)
    (configurationService : ConfigurationService) (fileService : FileService)
    (promptValue : Str) (cursorPosition : Int)
    (shellType : TerminalShellType) (capabilities : CapabilityStore)
    (triggerCharacter : Bool) (hcp : ¬cursorPosition < 0)
    (hb : ∀ p ∈ registryProviders st, jsTruthy p.isBuiltin = false) :
    provideCompletions st configurationService fileService promptValue
      cursorPosition shellType capabilities triggerCharacter true =
      .ok (some []) := by
  unfold provideCompletions
  rw [if_neg hcp]
  simp only [if_true]
  have hfil : (if triggerCharacter = true then
      triggerSelectedProviders st promptValue cursorPosition.toNat
      else registryProviders st).filter (fun p => jsTruthy p.isBuiltin) =
      [] := by
    apply List.filter_eq_nil_iff.mpr
    intro p hp
    have hmem : p ∈ registryProviders st := by
      by_cases htr : triggerCharacter = true
      · rw [if_pos htr] at hp
        exact (List.mem_filter.mp hp).1
      · rw [if_neg htr] at hp
        exact hp
    rw [hb p hmem]
    simp
  rw [hfil]
  rfl

/-- C10: `resolveResources` returns no result without consulting the file
system whenever the configuration has no working directory or requests
neither files nor folders; in that case `_collectCompletions` still returns
the provider's own (stamped) items. -/
theorem c10_resource_request_early_exit :
    (∀ (resourceRequestConfig : TerminalResourceRequestConfig)
        (promptValue : Str) (cursorPosition : Nat) (provider : Str)
        (capabilities : CapabilityStore)
        (configurationService : ConfigurationService),
      (resourceRequestConfig.cwd = none ∨
        (resourceRequestConfig.foldersRequested.getD false = false ∧
          resourceRequestConfig.filesRequested.getD false = false)) →
      ∀ fileService, resolveResources resourceRequestConfig promptValue
        cursorPosition provider capabilities configurationService
        fileService = .ok none)
    ∧ (∀ (configurationService : ConfigurationService)
        (fileService : FileService) (capabilities : CapabilityStore)
        (shellType : TerminalShellType) (promptValue : Str)
        (cursorPosition : Nat) (p : CompletionProvider)
        (items : Option (List CompletionItem))
        (rrc : TerminalResourceRequestConfig),
      shellApplies p shellType = true →
      p.provide promptValue cursorPosition =
        .ok (some (.list items (some rrc))) →
      resolveResources rrc promptValue cursorPosition p.id capabilities
        configurationService fileService = .ok none →
      collectFromProvider configurationService fileService capabilities
        shellType promptValue cursorPosition p =
        .ok (some (stampCompletionItems shellType p (items.getD [])))) := by
  constructor
  · intro cfg pv cp prov caps cfgS h fs
    unfold resolveResources
    simp only []
    rcases h with h | h
    · simp only [h]
    · cases hcwd : cfg.cwd with
      | none => simp only [hcwd]
      | some cwd =>
        simp only [hcwd, h.1, h.2]
        rfl
  · intro cfgS fs caps shT pv cp p items rrc hshell hprov hres
    unfold collectFromProvider
    rw [hshell]
    simp only [Bool.not_true, Bool.false_eq_true, if_false, hprov, hres,
      Option.getD_none, List.append_nil]

/-- C6: when the folder prefix is classified as tilde and the home directory
cannot be read from the shell environment (capability absent, or the
`HOME`/`USERPROFILE` variable unset), `resolveResources` returns exactly one
placeholder item of kind folder whose label is the folder prefix and whose
detail is the fixed string (`$HOME` on POSIX-style configurations,
`Home directory` on Windows-style ones), and no directory listing is
attempted (the result is the same for every file service). -/
theorem c6_tilde_placeholder
    (resourceRequestConfig : TerminalResourceRequestConfig)
    (promptValue : Str) (cursorPosition : Nat) (provider : Str)
    (capabilities : CapabilityStore)
    (configurationService : ConfigurationService) (cwd : URI)
    (hcwd : resourceRequestConfig.cwd = some cwd)
    (hreq : resourceRequestConfig.foldersRequested.getD false = true ∨
      resourceRequestConfig.filesRequested.getD false = true)
    (htilde : hasTildePrefixB (lastWordFolderOf
      resourceRequestConfig.pathSeparator
      (lastWordOf (normalizePrompt resourceRequestConfig.pathSeparator
        promptValue) cursorPosition)) = true)
    (henv : capabilities.shellEnvDetectionEnv = none ∨
      ∀ env, capabilities.shellEnvDetectionEnv = some env →
        (if (resourceRequestConfig.pathSeparator == str "\\") = true then
          List.lookup (str "USERPROFILE") env
        else List.lookup (str "HOME") env) = none) :
    ∀ fileService, resolveResources resourceRequestConfig promptValue
      cursorPosition provider capabilities configurationService fileService =
      .ok (some [⟨lastWordFolderOf resourceRequestConfig.pathSeparator
          (lastWordOf (normalizePrompt resourceRequestConfig.pathSeparator
            promptValue) cursorPosition),
        provider, CompletionItemKind.folder,
        some (if (resourceRequestConfig.pathSeparator == str "\\") = true then
          str "Home directory" else str "$HOME"),
        cursorPosition - (lastWordOf (normalizePrompt
          resourceRequestConfig.pathSeparator promptValue)
          cursorPosition).length,
        (lastWordOf (normalizePrompt resourceRequestConfig.pathSeparator
          promptValue) cursorPosition).length, none⟩]) := by
  intro fileService
  unfold resolveResources
  simp only [hcwd]
  have hflag : (!resourceRequestConfig.foldersRequested.getD false &&
      !resourceRequestConfig.filesRequested.getD false) = false := by
    rcases hreq with h | h <;> simp [h]
  simp only [hflag, Bool.false_eq_true, if_false]
  unfold resolveResourcesWithCwd
  simp only []
  have htype : pathTypeOf (resourceRequestConfig.pathSeparator == str "\\")
      resourceRequestConfig.pathSeparator
      (lastWordOf (normalizePrompt resourceRequestConfig.pathSeparator
        promptValue) cursorPosition)
      (lastWordFolderOf resourceRequestConfig.pathSeparator
        (lastWordOf (normalizePrompt resourceRequestConfig.pathSeparator
          promptValue) cursorPosition)) = .tilde := by
    unfold pathTypeOf
    simp only [htilde, if_true]
  simp only [htype]
  unfold lastWordFolderResourceOf
  simp only []
  cases hce : capabilities.shellEnvDetectionEnv with
  | none =>
    simp only [homeDetail]
  | some env =>
    rcases henv with hnone | hlook
    · rw [hce] at hnone
      cases hnone
    · have := hlook env hce
      simp only [this, homeDetail]

/-- C7 counterexample: the claim says the current word is the substring after
the last whitespace character before the cursor, but the source splits only
at the space character: on prompt `"a\tb"` with cursor 3, the code extracts
`"a\tb"` while the whitespace reading demands `"b"`. -/
theorem c7_whitespace_counterexample :
    ¬(lastWordOf (str "a\tb") 3 = specCurrentWord (str "a\tb") 3) := by
  decide

/-- C7 (amended): for every prompt and cursor position, the current word used
by path resolution is the substring of the prompt between the last space
character (`' '`, not arbitrary whitespace) before the cursor and the cursor,
and is empty whenever the cursor immediately follows a space. -/
theorem c7_current_word_amended (promptValue : Str) (cursorPosition : Nat) :
    lastWordOf promptValue cursorPosition =
      specCurrentWordSpace promptValue cursorPosition :=
  lastWordOf_eq_specSpace promptValue cursorPosition

theorem mem_assocDelete {β : Type} (k : Str) (m : List (Str × β))
    (y : Str × β) (hy : y ∈ assocDelete k m) : y ∈ m ∧ y.1 ≠ k := by
  induction m with
  | nil => cases hy
  | cons hd tl ih =>
    obtain ⟨a, w⟩ := hd
    by_cases hh : a = k
    · rw [assocDelete, if_pos hh] at hy
      rcases ih hy with ⟨h1, h2⟩
      exact ⟨List.mem_cons_of_mem (a, w) h1, h2⟩
    · rw [assocDelete, if_neg hh] at hy
      rcases List.mem_cons.mp hy with hy | hy
      · refine ⟨by rw [hy]; exact List.mem_cons_self (a, w) tl, ?_⟩
        rw [hy]; exact hh
      · rcases ih hy with ⟨h1, h2⟩
        exact ⟨List.mem_cons_of_mem (a, w) h1, h2⟩

/-- C8: registration stores the provider under (namespace, id), stamped with
the given id and trigger characters; the release handle removes exactly that
entry, leaving every other (namespace, id) untouched, prunes the namespace
bucket when it empties, and the flattened providers view yields only the
remaining entries; re-registering the same (namespace, id) silently
overwrites the previous entry. -/
theorem c8_registry_lifecycle (st : Registry) (e i : Str)
    (p pp : CompletionProvider) (tc tcc : List Str) (hwf : registryWF st) :
    registryLookup (registerTerminalCompletionProvider st e i p tc) e i =
      some ⟨i, p.shellTypes, some tc, p.isBuiltin, p.provide⟩
    ∧ (∀ eo io, ¬(eo = e ∧ io = i) →
        registryLookup (disposeProviderRegistration st e i) eo io =
          registryLookup st eo io)
    ∧ registryLookup (disposeProviderRegistration st e i) e i = none
    ∧ (∀ x ∈ registryEntries (disposeProviderRegistration st e i),
        ¬(x.1 = e ∧ x.2.1 = i) ∧ x ∈ registryEntries st)
    ∧ (∀ q ∈ registryProviders (disposeProviderRegistration st e i),
        ∃ x ∈ registryEntries (disposeProviderRegistration st e i),
          x.2.2 = q)
    ∧ (∀ b, List.lookup e st = some b → assocDelete i b = [] →
        List.lookup e (disposeProviderRegistration st e i) = none)
    ∧ registerTerminalCompletionProvider
        (registerTerminalCompletionProvider st e i p tc) e i pp tcc =
        registerTerminalCompletionProvider st e i pp tcc := by
  refine ⟨?_, ?_, ?_, ?_, ?_, ?_, ?_⟩
  · unfold registryLookup registerTerminalCompletionProvider
    simp only []
    rw [lookup_assocSet_self]
    simp only [Option.some_bind]
    rw [lookup_assocSet_self]
  · intro eo io hne
    unfold disposeProviderRegistration registryLookup
    cases hle : List.lookup e st with
    | none => simp only []
    | some b =>
      simp only []
      by_cases hemp : (assocDelete i b).isEmpty = true
      · rw [if_pos hemp]
        by_cases heo : eo = e
        · subst heo
          have hio : io ≠ i := fun hc => hne ⟨rfl, hc⟩
          have hnil : assocDelete i b = [] := by
            rwa [List.isEmpty_iff] at hemp
          rw [lookup_assocDelete_self, hle]
          simp only [Option.none_bind, Option.some_bind]
          rw [lookup_none_of_all_keys i io b
            (assocDelete_nil_keys i b hnil) hio]
        · rw [lookup_assocDelete_ne e eo st heo]
      · rw [if_neg hemp]
        by_cases heo : eo = e
        · subst heo
          have hio : io ≠ i := fun hc => hne ⟨rfl, hc⟩
          rw [lookup_assocSet_self, hle]
          simp only [Option.some_bind]
          exact lookup_assocDelete_ne i io b hio
        · rw [lookup_assocSet_ne e eo _ st heo]
  · unfold disposeProviderRegistration registryLookup
    cases hle : List.lookup e st with
    | none => simp only [hle, Option.none_bind]
    | some b =>
      simp only []
      by_cases hemp : (assocDelete i b).isEmpty = true
      · rw [if_pos hemp, lookup_assocDelete_self]
        simp only [Option.none_bind]
      · rw [if_neg hemp, lookup_assocSet_self]
        simp only [Option.some_bind]
        exact lookup_assocDelete_self i b
  · intro x hx
    unfold disposeProviderRegistration at hx
    cases hle : List.lookup e st with
    | none =>
      simp only [hle] at hx
      refine ⟨?_, hx⟩
      rintro ⟨hxe, _⟩
      unfold registryEntries at hx
      rcases List.mem_flatMap.mp hx with ⟨bucket, hb, hxb⟩
      rcases List.mem_map.mp hxb with ⟨entry, _, hxeq⟩
      have hb1 : bucket.1 = e := by rw [← hxeq] at hxe; exact hxe
      exact lookup_none_keys e st hle bucket hb hb1
    | some b =>
      simp only [hle] at hx
      by_cases hemp : (assocDelete i b).isEmpty = true
      · rw [if_pos hemp] at hx
        unfold registryEntries at hx ⊢
        rcases List.mem_flatMap.mp hx with ⟨bucket, hb, hxb⟩
        rcases mem_assocDelete e st bucket hb with ⟨hbm, hbne⟩
        rcases List.mem_map.mp hxb with ⟨entry, _, hxeq⟩
        constructor
        · rintro ⟨hxe, _⟩
          have hb1 : bucket.1 = e := by rw [← hxeq] at hxe; exact hxe
          exact hbne hb1
        · exact List.mem_flatMap.mpr ⟨bucket, hbm, hxb⟩
      · rw [if_neg hemp] at hx
        unfold registryEntries at hx ⊢
        rcases List.mem_flatMap.mp hx with ⟨bucket, hb, hxb⟩
        have hk : (List.lookup e st).isSome := by rw [hle]; rfl
        rcases mem_assocSet_of_nodup e (assocDelete i b) st hwf.1 bucket hb
            hk with hbe | ⟨hbm, hbne⟩
        · rcases List.mem_map.mp hxb with ⟨entry, hent, hxeq⟩
          rcases mem_assocDelete i b entry (by rw [hbe] at hent; exact hent)
            with ⟨hentb, hentne⟩
          constructor
          · rintro ⟨_, hxi⟩
            have : x.2.1 = entry.1 := by rw [← hxeq]
            rw [this] at hxi
            exact hentne hxi
          · refine List.mem_flatMap.mpr ⟨(e, b), lookup_mem e st b hle, ?_⟩
            refine List.mem_map.mpr ⟨entry, hentb, ?_⟩
            rw [← hxeq, hbe]
        · constructor
          · rintro ⟨hxe, _⟩
            rcases List.mem_map.mp hxb with ⟨entry, _, hxeq⟩
            have hb1 : bucket.1 = e := by rw [← hxeq] at hxe; exact hxe
            exact hbne hb1
          · exact List.mem_flatMap.mpr ⟨bucket, hbm, hxb⟩
  · intro q hq
    unfold registryProviders at hq
    rcases List.mem_flatMap.mp hq with ⟨bucket, hb, hqb⟩
    rcases List.mem_map.mp hqb with ⟨entry, hent, heq⟩
    refine ⟨(bucket.1, entry.1, entry.2), ?_, heq⟩
    unfold registryEntries
    exact List.mem_flatMap.mpr ⟨bucket, hb,
      List.mem_map.mpr ⟨entry, hent, rfl⟩⟩
  · intro b hb hnil
    unfold disposeProviderRegistration
    simp only [hb]
    have hemp : (assocDelete i b).isEmpty = true := by rw [hnil]; rfl
    rw [if_pos hemp]
    exact lookup_assocDelete_self e st
  · unfold registerTerminalCompletionProvider
    simp only []
    rw [lookup_assocSet_self]
    simp only [Option.getD_some]
    rw [assocSet_assocSet, assocSet_assocSet]

theorem collectAll_error {α β : Type} (f : α → Except Str β)
    (l₁ l₂ : List α) (a : α) (e : Str)
    (hok : ∀ q ∈ l₁, ∃ r, f q = .ok r) (ha : f a = .error e) :
    collectAll f (l₁ ++ a :: l₂) = .error e := by
  induction l₁ with
  | nil =>
    simp only [List.nil_append, collectAll, ha]
  | cons q l ih =>
    rcases hok q (List.mem_cons_self q l) with ⟨r, hr⟩
    have htail := ih (fun x hx => hok x (List.mem_cons_of_mem q hx))
    simp only [List.cons_append, collectAll, hr, List.append_eq, htail]

theorem flatMapCongr {α β : Type} (l : List α) (f g : α → List β)
    (h : ∀ a ∈ l, f a = g a) : l.flatMap f = l.flatMap g := by
  induction l with
  | nil => rfl
  | cons a rest ih =>
    rw [List.flatMap_cons, List.flatMap_cons,
      h a (List.mem_cons_self a rest),
      ih (fun x hx => h x (List.mem_cons_of_mem a hx))]

theorem cdPathEntryItems_fs_congr (fs1 fs2 : FileService) (v : URI) (e : Str)
    (hagree : ∀ w, w ≠ v → fs1 w = fs2 w) (h1 : fs1 v = .error e)
    (h2 : fs2 v = .ok none) (cdPathConfigValue pathSeparator provider : Str)
    (cursorPosition : Nat) (lastWord : Str) :
    ∀ entry, cdPathEntryItems fs1 cdPathConfigValue pathSeparator provider
        cursorPosition lastWord entry =
      cdPathEntryItems fs2 cdPathConfigValue pathSeparator provider
        cursorPosition lastWord entry := by
  intro entry
  by_cases hv : URI.file entry = v
  · unfold cdPathEntryItems
    rw [hv, h1, h2]
  · unfold cdPathEntryItems
    rw [hagree (URI.file entry) hv]

theorem cdPathCompletionItems_fs_congr (type : PathType)
    (foldersRequested useWindowsStylePath : Bool) (promptValue : Str)
    (configurationService : ConfigurationService)
    (capabilities : CapabilityStore) (fs1 fs2 : FileService) (v : URI)
    (e : Str) (hagree : ∀ w, w ≠ v → fs1 w = fs2 w) (h1 : fs1 v = .error e)
    (h2 : fs2 v = .ok none) (pathSeparator provider : Str)
    (cursorPosition : Nat) (lastWord : Str) :
    cdPathCompletionItems type foldersRequested useWindowsStylePath
      promptValue configurationService capabilities fs1 pathSeparator
      provider cursorPosition lastWord =
    cdPathCompletionItems type foldersRequested useWindowsStylePath
      promptValue configurationService capabilities fs2 pathSeparator
      provider cursorPosition lastWord := by
  unfold cdPathCompletionItems
  simp only []
  split
  · split
    · split
      · split
        · rfl
        · split
          · rfl
          · split
            · rfl
            · exact flatMapCongr _ _ _
                (fun a _ => cdPathEntryItems_fs_congr fs1 fs2 v e hagree h1 h2
                  _ _ _ _ _ a)
      · rfl
    · rfl
  · rfl

theorem provideCompletions_reduction (st : Registry)
    (configurationService : ConfigurationService) (fileService : FileService)
    (promptValue : Str) (cursorPosition : Int)
    (shellType : TerminalShellType) (capabilities : CapabilityStore)
    (triggerCharacter skipExtensionCompletions : Bool)
    (hcp : ¬cursorPosition < 0)
    (hne : finalProviders st configurationService promptValue
        cursorPosition.toNat triggerCharacter skipExtensionCompletions ≠ [] ∨
      skipExtensionCompletions = true) :
    provideCompletions st configurationService fileService promptValue
      cursorPosition shellType capabilities triggerCharacter
      skipExtensionCompletions =
    exceptSome (collectCompletions configurationService fileService
      (finalProviders st configurationService promptValue
        cursorPosition.toNat triggerCharacter skipExtensionCompletions)
      shellType promptValue cursorPosition.toNat capabilities) := by
  unfold provideCompletions finalProviders
  rw [if_neg hcp]
  cases skipExtensionCompletions with
  | true => rfl
  | false =>
    simp only [Bool.false_eq_true, if_false]
    have hne2 : finalProviders st configurationService promptValue
        cursorPosition.toNat triggerCharacter false ≠ [] := by
      rcases hne with h | h
      · exact h
      · cases h
    unfold finalProviders at hne2
    simp only [Bool.false_eq_true, if_false] at hne2
    rw [if_neg (fun hc => hne2 (List.isEmpty_iff.mp hc))]

/-- C5: a rejection from a selected provider, or an unexpected failure of the
primary directory lookup, fails the whole `provideCompletions` call with that
error (no partial results); a failure resolving one `CDPATH` entry, by
contrast, is swallowed: that entry contributes nothing, the remaining entries
still contribute, and the overall result is the same as if the entry had
resolved to nothing. -/
theorem c5_failure_semantics :
    (∀ (configurationService : ConfigurationService)
        (fileService : FileService) (capabilities : CapabilityStore)
        (shellType : TerminalShellType) (promptValue : Str)
        (cursorPosition : Nat) (p : CompletionProvider) (e : Str),
      shellApplies p shellType = true →
      p.provide promptValue cursorPosition = .error e →
      collectFromProvider configurationService fileService capabilities
        shellType promptValue cursorPosition p = .error e)
    ∧ (∀ (resourceRequestConfig : TerminalResourceRequestConfig)
        (promptValue : Str) (cursorPosition : Nat) (provider : Str)
        (capabilities : CapabilityStore)
        (configurationService : ConfigurationService)
        (fileService : FileService) (cwd u : URI) (e : Str),
      resourceRequestConfig.cwd = some cwd →
      (resourceRequestConfig.foldersRequested.getD false = true ∨
        resourceRequestConfig.filesRequested.getD false = true) →
      lastWordFolderResourceOf
        (pathTypeOf (resourceRequestConfig.pathSeparator == str "\\")
          resourceRequestConfig.pathSeparator
          (lastWordOf (normalizePrompt resourceRequestConfig.pathSeparator
            promptValue) cursorPosition)
          (lastWordFolderOf resourceRequestConfig.pathSeparator
            (lastWordOf (normalizePrompt resourceRequestConfig.pathSeparator
              promptValue) cursorPosition)))
        (resourceRequestConfig.pathSeparator == str "\\") capabilities cwd
        (lastWordFolderOf resourceRequestConfig.pathSeparator
          (lastWordOf (normalizePrompt resourceRequestConfig.pathSeparator
            promptValue) cursorPosition)) = .inl u →
      fileService u = .error e →
      resolveResources resourceRequestConfig promptValue cursorPosition
        provider capabilities configurationService fileService = .error e)
    ∧ (∀ (configurationService : ConfigurationService)
        (fileService : FileService) (capabilities : CapabilityStore)
        (shellType : TerminalShellType) (promptValue : Str)
        (cursorPosition : Nat) (p : CompletionProvider)
        (items : Option (List CompletionItem))
        (rrc : TerminalResourceRequestConfig) (e : Str),
      shellApplies p shellType = true →
      p.provide promptValue cursorPosition =
        .ok (some (.list items (some rrc))) →
      resolveResources rrc promptValue cursorPosition p.id capabilities
        configurationService fileService = .error e →
      collectFromProvider configurationService fileService capabilities
        shellType promptValue cursorPosition p = .error e)
    ∧ (∀ (st : Registry) (configurationService : ConfigurationService)
        (fileService : FileService) (promptValue : Str)
        (cursorPosition : Int) (shellType : TerminalShellType)
        (capabilities : CapabilityStore)
        (triggerCharacter skipExtensionCompletions : Bool)
        (l₁ l₂ : List CompletionProvider) (p : CompletionProvider) (e : Str),
      ¬cursorPosition < 0 →
      finalProviders st configurationService promptValue cursorPosition.toNat
        triggerCharacter skipExtensionCompletions = l₁ ++ p :: l₂ →
      (∀ q ∈ l₁, ∃ r, collectFromProvider configurationService fileService
        capabilities shellType promptValue cursorPosition.toNat q = .ok r) →
      collectFromProvider configurationService fileService capabilities
        shellType promptValue cursorPosition.toNat p = .error e →
      provideCompletions st configurationService fileService promptValue
        cursorPosition shellType capabilities triggerCharacter
        skipExtensionCompletions = .error e)
    ∧ (∀ (fileService : FileService) (cdPathConfigValue pathSeparator
        provider : Str) (cursorPosition : Nat) (lastWord cdPathEntry : Str)
        (e : Str) (es₁ es₂ : List Str),
      fileService (URI.file cdPathEntry) = .error e →
      (es₁ ++ cdPathEntry :: es₂).flatMap
        (cdPathEntryItems fileService cdPathConfigValue pathSeparator
          provider cursorPosition lastWord) =
        es₁.flatMap (cdPathEntryItems fileService cdPathConfigValue
          pathSeparator provider cursorPosition lastWord) ++
        es₂.flatMap (cdPathEntryItems fileService cdPathConfigValue
          pathSeparator provider cursorPosition lastWord))
    ∧ (∀ (resourceRequestConfig : TerminalResourceRequestConfig)
        (promptValue : Str) (cursorPosition : Nat) (provider : Str)
        (capabilities : CapabilityStore)
        (configurationService : ConfigurationService)
        (fs1 fs2 : FileService) (v : URI) (e : Str),
      (∀ w, w ≠ v → fs1 w = fs2 w) →
      fs1 v = .error e →
      fs2 v = .ok none →
      (∀ cwd, resourceRequestConfig.cwd = some cwd →
        lastWordFolderResourceOf
          (pathTypeOf (resourceRequestConfig.pathSeparator == str "\\")
            resourceRequestConfig.pathSeparator
            (lastWordOf (normalizePrompt resourceRequestConfig.pathSeparator
              promptValue) cursorPosition)
            (lastWordFolderOf resourceRequestConfig.pathSeparator
              (lastWordOf (normalizePrompt
                resourceRequestConfig.pathSeparator promptValue)
                cursorPosition)))
          (resourceRequestConfig.pathSeparator == str "\\") capabilities cwd
          (lastWordFolderOf resourceRequestConfig.pathSeparator
            (lastWordOf (normalizePrompt resourceRequestConfig.pathSeparator
              promptValue) cursorPosition)) ≠ .inl v) →
      resolveResources resourceRequestConfig promptValue cursorPosition
        provider capabilities configurationService fs1 =
      resolveResources resourceRequestConfig promptValue cursorPosition
        provider capabilities configurationService fs2) := by
  refine ⟨?_, ?_, ?_, ?_, ?_, ?_⟩
  · intro cfgS fs caps shT pv cp p e hshell herr
    unfold collectFromProvider
    rw [hshell]
    simp only [Bool.not_true, Bool.false_eq_true, if_false, herr]
  · intro cfg pv cp prov caps cfgS fs cwd u e hcwd hreq hres hfs
    unfold resolveResources
    simp only [hcwd]
    have hflag : (!cfg.foldersRequested.getD false &&
        !cfg.filesRequested.getD false) = false := by
      rcases hreq with h | h <;> simp [h]
    simp only [hflag, Bool.false_eq_true, if_false]
    unfold resolveResourcesWithCwd
    simp only [hres, hfs]
  · intro cfgS fs caps shT pv cp p items rrc e hshell hprov hres
    unfold collectFromProvider
    rw [hshell]
    simp only [Bool.not_true, Bool.false_eq_true, if_false, hprov, hres]
  · intro st cfgS fs pv cp shT caps trig skip l₁ l₂ p e hcp hfp hok herrp
    have hne : finalProviders st cfgS pv cp.toNat trig skip ≠ [] ∨
        skip = true := by
      left
      rw [hfp]
      simp
    rw [provideCompletions_reduction st cfgS fs pv cp shT caps trig skip hcp
      hne, hfp]
    unfold collectCompletions
    rw [collectAll_error _ l₁ l₂ p e hok herrp]
    rfl
  · intro fs v sep prov cp lw entry e es₁ es₂ hfs
    have hentry : cdPathEntryItems fs v sep prov cp lw entry = [] := by
      unfold cdPathEntryItems
      rw [hfs]
    rw [List.flatMap_append, List.flatMap_cons, hentry, List.nil_append]
  · intro cfg pv cp prov caps cfgS fs1 fs2 v e hagree h1 h2 hprim
    unfold resolveResources
    simp only []
    cases hcwd : cfg.cwd with
    | none => rfl
    | some cwd =>
      simp only []
      by_cases hflag : (!cfg.foldersRequested.getD false &&
          !cfg.filesRequested.getD false) = true
      · rw [if_pos hflag, if_pos hflag]
      · rw [if_neg hflag, if_neg hflag]
        unfold resolveResourcesWithCwd
        simp only []
        generalize hres : lastWordFolderResourceOf
            (pathTypeOf (cfg.pathSeparator == str "\\") cfg.pathSeparator
              (lastWordOf (normalizePrompt cfg.pathSeparator pv) cp)
              (lastWordFolderOf cfg.pathSeparator
                (lastWordOf (normalizePrompt cfg.pathSeparator pv) cp)))
            (cfg.pathSeparator == str "\\") caps cwd
            (lastWordFolderOf cfg.pathSeparator
              (lastWordOf (normalizePrompt cfg.pathSeparator pv) cp)) =
            res
        cases res with
        | inr s => rfl
        | inl u =>
          simp only []
          have hune : u ≠ v := by
            intro hc
            exact hprim cwd hcwd (hc ▸ hres)
          rw [hagree u hune]
          generalize fs2 u = r
          cases r with
          | error e2 => rfl
          | ok stat =>
            cases stat with
            | none => rfl
            | some s =>
              simp only []
              cases s.children with
              | none => rfl
              | some children =>
                simp only []
                rw [cdPathCompletionItems_fs_congr _ _ _ _ _ _ fs1 fs2 v e
                  hagree h1 h2]

/-! ### Witnesses instantiating the claim theorems on concrete inputs -/

/-- Witness for C1: a concrete relative request (`cd `, cursor 3, folders
only) produces the self item, one child item and the parent item, all with
replacement span (3, 0). -/
theorem c1_witness :
    resolveResources ⟨some false, some true, some ⟨str "/r"⟩, str "/", none⟩
      (str "cd ") 3 (str "p") ⟨none⟩ ⟨[], str ""⟩
      (fun _ => .ok (some ⟨some [⟨str "src", ⟨str "/r/src"⟩, true, false⟩]⟩)) =
      .ok (some [⟨str ".", str "p", .folder, some (str "/r/"), 3, 0, none⟩,
        ⟨str "./src/", str "p", .folder, some (str "/r/src/"), 3, 0, none⟩,
        ⟨str "../", str "p", .folder, some (str "/r/../"), 3, 0, none⟩])
    ∧ ∀ it ∈ [(⟨str ".", str "p", .folder, some (str "/r/"), 3, 0, none⟩ :
          CompletionItem),
        ⟨str "./src/", str "p", .folder, some (str "/r/src/"), 3, 0, none⟩,
        ⟨str "../", str "p", .folder, some (str "/r/../"), 3, 0, none⟩],
      it.replacementIndex = 3 -
        (lastWordOf (normalizePrompt (str "/") (str "cd ")) 3).length ∧
      it.replacementLength =
        (lastWordOf (normalizePrompt (str "/") (str "cd ")) 3).length ∧
      it.replacementIndex + it.replacementLength = 3 :=
  ⟨rfl,
    fun it hit => c1_resolveResources_replacement_span
      ⟨some false, some true, some ⟨str "/r"⟩, str "/", none⟩
      (str "cd ") 3 (str "p") ⟨none⟩ ⟨[], str ""⟩
      (fun _ => .ok (some ⟨some [⟨str "src", ⟨str "/r/src"⟩, true, false⟩]⟩))
      _ rfl it hit⟩

/-- Witness for C2: cursor position `-1` yields no result. -/
theorem c2_witness :
    provideCompletions [] ⟨[], str ""⟩ (fun _ => .ok none) (str "cd ") (-1)
      .bash ⟨none⟩ false false = .ok none :=
  c2_negative_cursor_no_result [] ⟨[], str ""⟩ (fun _ => .ok none)
    (str "cd ") (-1) .bash ⟨none⟩ false false (by decide)

/-- Witness for C3: a provider with trigger set `{"/"}` is selected when the
prompt up to the cursor ends with `/`. -/
theorem c3_witness :
    (⟨str "a", none, some [str "/"], none, fun _ _ => .ok none⟩ :
        CompletionProvider) ∈
      triggerSelectedProviders
        [(str "ext", [(str "a",
          ⟨str "a", none, some [str "/"], none, fun _ _ => .ok none⟩)])]
        (str "cd /") 4 :=
  ((c3_trigger_character_selection
    [(str "ext", [(str "a",
      ⟨str "a", none, some [str "/"], none, fun _ _ => .ok none⟩)])]
    (str "cd /") 4
    ⟨str "a", none, some [str "/"], none, fun _ _ => .ok none⟩
    (List.mem_cons_self _ [])).1).mpr
    ⟨[str "/"], rfl, str "/", List.mem_cons_self _ [], by decide⟩

/-- Witness for C4: with an empty enablement mapping, zero providers survive
and the call returns no result. -/
theorem c4_witness :
    provideCompletions
      [(str "ext", [(str "a",
        ⟨str "a", none, none, none, fun _ _ => .ok none⟩)])]
      ⟨[], str ""⟩ (fun _ => .ok none) (str "x") 0 .bash ⟨none⟩ false false =
      .ok none :=
  (c4_configuration_filter
    [(str "ext", [(str "a",
      ⟨str "a", none, none, none, fun _ _ => .ok none⟩)])]
    ⟨[], str ""⟩ (fun _ => .ok none) (str "x") 0 .bash ⟨none⟩ false
    (by decide)).2.1 rfl

/-- Witness for C5: a single selected builtin provider whose invocation
rejects makes the whole `provideCompletions` call fail with that error. -/
theorem c5_witness :
    provideCompletions
      [(str "e", [(str "a",
        ⟨str "a", none, none, some true, fun _ _ => .error (str "boom")⟩)])]
      ⟨[], str ""⟩ (fun _ => .ok none) (str "x") 0 .bash ⟨none⟩ false true =
      .error (str "boom") :=
  c5_failure_semantics.2.2.2.1
    [(str "e", [(str "a",
      ⟨str "a", none, none, some true, fun _ _ => .error (str "boom")⟩)])]
    ⟨[], str ""⟩ (fun _ => .ok none) (str "x") 0 .bash ⟨none⟩ false true
    [] []
    ⟨str "a", none, none, some true, fun _ _ => .error (str "boom")⟩
    (str "boom") (by decide) rfl
    (fun q hq => absurd hq (List.not_mem_nil q)) rfl

/-- Witness for C6: prompt `cd ~/` with no environment capability yields
exactly the `$HOME` placeholder item. -/
theorem c6_witness :
    resolveResources ⟨some false, some true, some ⟨str "/r"⟩, str "/", none⟩
      (str "cd ~/") 5 (str "p") ⟨none⟩ ⟨[], str ""⟩ (fun _ => .ok none) =
      .ok (some [⟨str "~/", str "p", .folder, some (str "$HOME"), 3, 2,
        none⟩]) :=
  c6_tilde_placeholder ⟨some false, some true, some ⟨str "/r"⟩, str "/", none⟩
    (str "cd ~/") 5 (str "p") ⟨none⟩ ⟨[], str ""⟩ ⟨str "/r"⟩ rfl
    (Or.inl rfl) (by decide) (Or.inl rfl) (fun _ => .ok none)

/-- Witness for C8: registering stores the stamped provider; disposing the
pre-existing registration removes it from the mapping. -/
theorem c8_witness :
    registryLookup (registerTerminalCompletionProvider
        [(str "ns", [(str "a",
          ⟨str "a", none, some [], some true, fun _ _ => .ok none⟩)])]
        (str "ns2") (str "b")
        ⟨str "bb", none, none, none, fun _ _ => .ok none⟩ [str "/"])
      (str "ns2") (str "b") =
      some ⟨str "b", none, some [str "/"], none, fun _ _ => .ok none⟩
    ∧ registryLookup (disposeProviderRegistration
        [(str "ns", [(str "a",
          ⟨str "a", none, some [], some true, fun _ _ => .ok none⟩)])]
        (str "ns") (str "a")) (str "ns") (str "a") = none :=
  ⟨(c8_registry_lifecycle
      [(str "ns", [(str "a",
        ⟨str "a", none, some [], some true, fun _ _ => .ok none⟩)])]
      (str "ns2") (str "b")
      ⟨str "bb", none, none, none, fun _ _ => .ok none⟩
      ⟨str "bb", none, none, none, fun _ _ => .ok none⟩
      [str "/"] [] (by decide)).1,
    (c8_registry_lifecycle
      [(str "ns", [(str "a",
        ⟨str "a", none, some [], some true, fun _ _ => .ok none⟩)])]
      (str "ns") (str "a")
      ⟨str "bb", none, none, none, fun _ _ => .ok none⟩
      ⟨str "bb", none, none, none, fun _ _ => .ok none⟩
      [] [] (by decide)).2.2.1⟩

/-- Witness for C9: one registered non-builtin provider, builtin-only
request: the result is the empty list, not no-result. -/
theorem c9_witness :
    provideCompletions
      [(str "ext", [(str "a",
        ⟨str "a", none, none, none, fun _ _ => .ok none⟩)])]
      ⟨[], str ""⟩ (fun _ => .ok none) (str "x") 0 .bash ⟨none⟩ false true =
      .ok (some []) :=
  c9_builtin_only_empty_list
    [(str "ext", [(str "a",
      ⟨str "a", none, none, none, fun _ _ => .ok none⟩)])]
    ⟨[], str ""⟩ (fun _ => .ok none) (str "x") 0 .bash ⟨none⟩ false
    (by decide)
    (fun p hp => by
      have h : p = ⟨str "a", none, none, none, fun _ _ => .ok none⟩ :=
        List.mem_singleton.mp hp
      rw [h]
      rfl)

/-- Witness for C10: a configuration without a working directory yields no
resource result for any file service. -/
theorem c10_witness :
    resolveResources ⟨some true, some true, none, str "/", none⟩ (str "ls ")
      3 (str "p") ⟨none⟩ ⟨[], str ""⟩ (fun _ => .ok none) = .ok none :=
  c10_resource_request_early_exit.1
    ⟨some true, some true, none, str "/", none⟩ (str "ls ") 3 (str "p")
    ⟨none⟩ ⟨[], str ""⟩ (Or.inl rfl) (fun _ => .ok none)
